import Mathlib

/-!
Verification of the semantic-validation pass in
`src/plugins/libimhex/source/lang/validator.cpp` (`hex::lang::Validator`).

The AST node variants and the recursive `validate` walk are embedded as
executable Lean definitions.  Pointers (`ASTNode*`) that may be null are
modelled as `Option ASTNode`; the `std::unordered_set<std::string>` of seen
identifiers is modelled as a `List String` queried by membership; the
exception thrown by `throwValidateError` is modelled with `Except`; the
`m_error` member written by each frame's `catch` block is modelled as the
`Option VError` value carried through the computation (purely as the *last
write*, since nothing in `validate` ever reads `m_error`).
-/

namespace ImHexLang

/-- AST node variants, following the node kinds dispatched on in
`validator.cpp` (ASTNodeVariableDecl, ASTNodePointerVariableDecl,
ASTNodeArrayVariableDecl, ASTNodeTypeDecl, ASTNodeStruct, ASTNodeUnion,
ASTNodeEnum, ASTNodeBitfield, ASTNodeBuiltinType, ASTNodeIntegerLiteral,
ASTNodeNumericExpression, ASTNodeRValue).  Every node carries its source
line number (`ASTNode::getLineNumber`).  The node classes themselves are
declared in a header not present under src/, so their fields follow the
accessors used by validator.cpp together with the spec's data model
(variable declarations carry a name, a type node and an optional
placement offset; type declarations a possibly empty name and a type
node; structs and unions a member list; enums and bitfields a list of
(name, value node) entries). -/
inductive ASTNode : Type where
  | variableDecl (name : String) (type : Option ASTNode)
      (placementOffset : Option ASTNode) (line : Nat)
  | pointerVariableDecl (name : String) (type : Option ASTNode)
      (sizeType : Option ASTNode) (placementOffset : Option ASTNode) (line : Nat)
  | arrayVariableDecl (name : String) (type : Option ASTNode)
      (size : Option ASTNode) (placementOffset : Option ASTNode) (line : Nat)
  | typeDecl (name : String) (type : Option ASTNode) (line : Nat)
  | struct (members : List (Option ASTNode)) (line : Nat)
  | union (members : List (Option ASTNode)) (line : Nat)
  | enum (entries : List (String × ASTNode)) (line : Nat)
  | bitfield (entries : List (String × ASTNode)) (line : Nat)
  | builtinType (line : Nat)
  | integerLiteral (value : Int) (line : Nat)
  | numericExpression (left : Option ASTNode) (right : Option ASTNode) (line : Nat)
  | rvalue (path : List String) (line : Nat)

/-- Source line of a node, as `ASTNode::getLineNumber()`. -/
def lineNumber : ASTNode → Nat
  | .variableDecl _ _ _ l => l
  | .pointerVariableDecl _ _ _ _ l => l
  | .arrayVariableDecl _ _ _ _ l => l
  | .typeDecl _ _ l => l
  | .struct _ l => l
  | .union _ l => l
  | .enum _ l => l
  | .bitfield _ l => l
  | .builtinType l => l
  | .integerLiteral _ l => l
  | .numericExpression _ _ l => l
  | .rvalue _ l => l

/-- The diagnostic carried by `ValidatorError` / stored in `m_error`:
a message and a source line, as built by `throwValidateError(msg, line)`. -/
structure VError where
  message : String
  line : Nat
deriving DecidableEq

/-- Message thrown at validator.cpp line 21 for a null node pointer. -/
def nullptrMessage : String := "nullptr in AST. This is a bug!"

/-- Message thrown at validator.cpp lines 25/30,
`hex::format("redefinition of identifier '{0}'", name)`. -/
def redefinitionMessage (name : String) : String :=
  "redefinition of identifier '" ++ name ++ "'"

/-- Message thrown at validator.cpp line 41,
`hex::format("redefinition of enum constant '{0}'", name)`. -/
def enumRedefinitionMessage (name : String) : String :=
  "redefinition of enum constant '" ++ name ++ "'"

/-- The sentinel diagnostic for a null node (validator.cpp line 21). -/
def nullptrError : VError := ⟨nullptrMessage, 1⟩

/-- Overwrite semantics of `m_error`: a later write (first argument), if
any, wins over an earlier one (second argument). -/
def overwrite : Option VError → Option VError → Option VError
  | none, b => b
  | some a, _ => some a

/-- The enum-entry loop of validator.cpp lines 38-42: walk the entries in
order with a local `enumIdentifiers` set; on the first name that fails to
insert, throw the enum-constant redefinition error at the line of that
entry's value node.  Returns the thrown error, or `none`. -/
def checkEnumEntries : List (String × ASTNode) → List String → Option VError
  | [], _ => none
  | (name, value) :: rest, seen =>
    if name ∈ seen then some ⟨enumRedefinitionMessage name, lineNumber value⟩
    else checkEnumEntries rest (name :: seen)

mutual

/-- Processing of one non-null node inside the loop of
`Validator::validate` (validator.cpp lines 23-43), in the frame whose
seen-identifier set is `ids`.  Returns `.error e` when this frame's body
throws (redefinition of a declaration name against `ids`, or an enum
constant redefinition), and otherwise `.ok (ids', w)` where `ids'` is the
updated identifier set and `w` is the last write to `m_error` performed by
nested `validate` frames entered from this node (each nested frame catches
its own `ValidatorError`, records it in `m_error`, and returns `false`,
a boolean the caller discards). -/
def validateNode : ASTNode → List String → Except VError (List String × Option VError)
  | .variableDecl name type _ line, ids =>
    if name ∈ ids then .error ⟨redefinitionMessage name, line⟩
    else .ok (name :: ids, nestedResult type)
  | .typeDecl name type line, ids =>
    if name ∈ ids then .error ⟨redefinitionMessage name, line⟩
    else .ok (name :: ids, nestedResult type)
  | .struct members _, ids => .ok (ids, frameResult members)
  | .union members _, ids => .ok (ids, frameResult members)
  | .enum entries _, ids =>
    match checkEnumEntries entries [] with
    | some e => .error e
    | none => .ok (ids, none)
  | .pointerVariableDecl _ _ _ _ _, ids => .ok (ids, none)
  | .arrayVariableDecl _ _ _ _ _, ids => .ok (ids, none)
  | .bitfield _ _, ids => .ok (ids, none)
  | .builtinType _, ids => .ok (ids, none)
  | .integerLiteral _ _, ids => .ok (ids, none)
  | .numericExpression _ _ _, ids => .ok (ids, none)
  | .rvalue _ _, ids => .ok (ids, none)

/-- The nested call `this->validate({ declNode->getType() })` made at
validator.cpp lines 27/32: a fresh frame on the singleton list holding the
declaration's type pointer.  The value returned is the last write that
nested frame makes to `m_error` (`some e` when it catches an error `e`,
its own nested frames' last write otherwise); its boolean verdict is
discarded by the caller. -/
def nestedResult : Option ASTNode → Option VError
  | none => some nullptrError
  | some n =>
    match validateNode n [] with
    | .error e => some e
    | .ok (_, w) => w

/-- The nested call `this->validate(node->getMembers())` made at
validator.cpp lines 34/36 for structs and unions: a fresh frame on the
member list.  As with `nestedResult`, only the frame's last write to
`m_error` survives; the boolean verdict is discarded by the caller. -/
def frameResult : List (Option ASTNode) → Option VError
  | members =>
    match validateList members [] with
    | .error e => some e
    | .ok w => w

/-- The body of one `Validator::validate` frame (the `try` block,
validator.cpp lines 19-44): walk `ast` in order with the seen-identifier
set `ids`, throwing `nullptrError` on a null entry.  `.error e` is a throw
escaping to this frame's `catch`; `.ok w` is normal completion, `w` being
the last write to `m_error` made by nested frames along the way. -/
def validateList : List (Option ASTNode) → List String → Except VError (Option VError)
  | [], _ => .ok none
  | none :: _, _ => .error nullptrError
  | some n :: rest, ids =>
    match validateNode n ids with
    | .error e => .error e
    | .ok (ids', w₁) =>
      match validateList rest ids' with
      | .error e => .error e
      | .ok w₂ => .ok (overwrite w₂ w₁)

end

/-- One call `Validator::validate(ast)` (validator.cpp lines 14-52).
The first component is the returned verdict (`true` = valid); the second
is the last write the call makes to `m_error`, if any (`some e` when this
frame's own `catch` runs, otherwise the last write of any nested frame). -/
def validate (ast : List (Option ASTNode)) : Bool × Option VError :=
  match validateList ast [] with
  | .ok w => (true, w)
  | .error e => (false, some e)

/-- A call on a `Validator` instance whose `m_error` member currently
holds `err`: the verdict together with the value of `m_error` after the
call (unchanged when the call writes nothing). -/
def runValidator (ast : List (Option ASTNode)) (err : Option VError) :
    Bool × Option VError :=
  ((validate ast).1, overwrite (validate ast).2 err)

/-- Name and line of a node when it is one of the two declaration kinds
whose names are inserted into the frame's identifier set
(`ASTNodeVariableDecl`, `ASTNodeTypeDecl`), `none` otherwise. -/
def declInfo : ASTNode → Option (String × Nat)
  | .variableDecl name _ _ line => some (name, line)
  | .typeDecl name _ line => some (name, line)
  | _ => none

/-- Whether a node is a `VariableDecl` or `TypeDecl`. -/
def isDecl (n : ASTNode) : Bool := (declInfo n).isSome

/-- Declared name of a declaration node (defaults for other kinds). -/
def declName (n : ASTNode) : String := ((declInfo n).map Prod.fst).getD ""

/-- Recorded line of a declaration node (defaults for other kinds). -/
def declLine (n : ASTNode) : Nat := ((declInfo n).map Prod.snd).getD 0

/-- Effect of one node on the frame's identifier set: a declaration
pushes its name, every other kind leaves the set unchanged. -/
def declCons (n : ASTNode) (ids : List String) : List String :=
  match declInfo n with
  | some (name, _) => name :: ids
  | none => ids

/-- The check one node performs against the frame's identifier set `ids`
that can make the frame throw: a declaration name already in `ids`, or a
duplicated enum constant.  Returns the thrown error, or `none`. -/
def nodeCheck (n : ASTNode) (ids : List String) : Option VError :=
  match n with
  | .variableDecl name _ _ line =>
    if name ∈ ids then some ⟨redefinitionMessage name, line⟩ else none
  | .typeDecl name _ line =>
    if name ∈ ids then some ⟨redefinitionMessage name, line⟩ else none
  | .enum entries _ => checkEnumEntries entries []
  | _ => none

/-- The result recorded in `m_error` by the nested frames a node spawns
(declaration type frames, struct/union member frames); `none` for the
node kinds that spawn no nested frame. -/
def subResult : ASTNode → Option VError
  | .variableDecl _ type _ _ => nestedResult type
  | .typeDecl _ type _ => nestedResult type
  | .struct members _ => frameResult members
  | .union members _ => frameResult members
  | _ => none

/-- The first error thrown in one frame's own body while walking `L`
with identifier set `ids` (`none` when the frame completes normally):
a null entry throws the sentinel, and otherwise each node's `nodeCheck`
fires in order while declarations accumulate via `declCons`. -/
def firstError : List (Option ASTNode) → List String → Option VError
  | [], _ => none
  | none :: _, _ => some nullptrError
  | some n :: rest, ids =>
    match nodeCheck n ids with
    | some e => some e
    | none => firstError rest (declCons n ids)

/-- Identifier set of a frame after walking `L` without throwing. -/
def idsAfter (L : List (Option ASTNode)) (ids : List String) : List String :=
  match L with
  | [] => ids
  | none :: rest => idsAfter rest ids
  | some n :: rest => idsAfter rest (declCons n ids)

/-- Names of the declarations appearing (non-null) in a node list, in
order. -/
def declNames (L : List (Option ASTNode)) : List String :=
  L.filterMap fun o =>
    match o with
    | some n => (declInfo n).map Prod.fst
    | none => none

/-- Whether an entry of a node list is a non-null node of one of the
kinds `Validator::validate` has no branch for (everything except
variable/type declarations, structs, unions and enums). -/
def isOtherKind : ASTNode → Bool
  | .pointerVariableDecl _ _ _ _ _ => true
  | .arrayVariableDecl _ _ _ _ _ => true
  | .bitfield _ _ => true
  | .builtinType _ => true
  | .integerLiteral _ _ => true
  | .numericExpression _ _ _ => true
  | .rvalue _ _ => true
  | _ => false

/-- Whether every entry of a node list is a non-null node that
`Validator::validate` has no branch for. -/
def listOtherKind (L : List (Option ASTNode)) : Bool :=
  L.all fun o =>
    match o with
    | some n => isOtherKind n
    | none => false

mutual

/-- Fuel-bounded single-node step, identical to `validateNode` except
that every recursive call consumes one unit of fuel and exhausted fuel
yields `none`. -/
def validateNodeFuel : Nat → ASTNode → List String →
    Option (Except VError (List String × Option VError))
  | 0, _, _ => none
  | fuel + 1, n, ids =>
    match n with
    | .variableDecl name type _ line =>
      if name ∈ ids then some (.error ⟨redefinitionMessage name, line⟩)
      else (nestedResultFuel fuel type).map fun w => .ok (name :: ids, w)
    | .typeDecl name type line =>
      if name ∈ ids then some (.error ⟨redefinitionMessage name, line⟩)
      else (nestedResultFuel fuel type).map fun w => .ok (name :: ids, w)
    | .struct members _ => (frameResultFuel fuel members).map fun w => .ok (ids, w)
    | .union members _ => (frameResultFuel fuel members).map fun w => .ok (ids, w)
    | .enum entries _ =>
      match checkEnumEntries entries [] with
      | some e => some (.error e)
      | none => some (.ok (ids, none))
    | .pointerVariableDecl _ _ _ _ _ => some (.ok (ids, none))
    | .arrayVariableDecl _ _ _ _ _ => some (.ok (ids, none))
    | .bitfield _ _ => some (.ok (ids, none))
    | .builtinType _ => some (.ok (ids, none))
    | .integerLiteral _ _ => some (.ok (ids, none))
    | .numericExpression _ _ _ => some (.ok (ids, none))
    | .rvalue _ _ => some (.ok (ids, none))

/-- Fuel-bounded analogue of `nestedResult`. -/
def nestedResultFuel (fuel : Nat) : Option ASTNode → Option (Option VError)
  | none => some (some nullptrError)
  | some n =>
    (validateNodeFuel fuel n []).map fun r =>
      match r with
      | .error e => some e
      | .ok (_, w) => w

/-- Fuel-bounded analogue of `frameResult`. -/
def frameResultFuel (fuel : Nat) (members : List (Option ASTNode)) :
    Option (Option VError) :=
  (validateListFuel fuel members []).map fun r =>
    match r with
    | .error e => some e
    | .ok w => w

/-- Fuel-bounded analogue of `validateList`. -/
def validateListFuel : Nat → List (Option ASTNode) → List String →
    Option (Except VError (Option VError))
  | 0, _, _ => none
  | _ + 1, [], _ => some (.ok none)
  | _ + 1, none :: _, _ => some (.error nullptrError)
  | fuel + 1, some n :: rest, ids =>
    match validateNodeFuel fuel n ids with
    | none => none
    | some (.error e) => some (.error e)
    | some (.ok (ids', w₁)) =>
      match validateListFuel fuel rest ids' with
      | none => none
      | some (.error e) => some (.error e)
      | some (.ok w₂) => some (.ok (overwrite w₂ w₁))

end

/-- Fuel-bounded analogue of `validate`: the recursion runs only as long
as fuel remains, so it is manifestly a finitely long computation, and
`none` signals that the fuel was exhausted before the walk finished. -/
def validateFuel (fuel : Nat) (ast : List (Option ASTNode)) :
    Option (Bool × Option VError) :=
  (validateListFuel fuel ast []).map fun r =>
    match r with
    | .ok w => (true, w)
    | .error e => (false, some e)

/-! ## General lemmas about the walk -/

/-- `validateNode` split into the throwing check, the identifier-set
update and the nested-frame writes. -/
theorem validateNode_eq (n : ASTNode) (ids : List String) :
    validateNode n ids =
      match nodeCheck n ids with
      | some e => .error e
      | none => .ok (declCons n ids, subResult n) := by
  cases n <;> simp [validateNode, nodeCheck, declCons, declInfo, subResult] <;> split <;> simp

/-- A frame body throws exactly the error predicted by `firstError`. -/
theorem validateList_error_iff (L : List (Option ASTNode)) (ids : List String) (e : VError) :
    validateList L ids = .error e ↔ firstError L ids = some e := by
  induction L generalizing ids with
  | nil => simp [validateList, firstError]
  | cons o rest ih =>
    cases o with
    | none => simp [validateList, firstError]
    | some n =>
      rw [validateList, validateNode_eq]
      cases h : nodeCheck n ids with
      | some e2 => simp [firstError, h]
      | none =>
        simp only [firstError, h]
        cases h2 : validateList rest (declCons n ids) with
        | error e2 => simp [h2, ← ih]
        | ok w => simp [h2, ← ih, h2]

/-- The verdict of `validate` is success exactly when the top frame's
own body throws nothing. -/
theorem validate_fst (L : List (Option ASTNode)) :
    (validate L).1 = (firstError L []).isNone := by
  unfold validate
  cases h : validateList L [] with
  | ok w =>
    cases h2 : firstError L [] with
    | none => rfl
    | some e => rw [← validateList_error_iff] at h2; rw [h] at h2; cases h2
  | error e => rw [validateList_error_iff] at h; simp [h]

/-- When the top frame throws, `validate` reports exactly that error. -/
theorem validate_of_firstError {L : List (Option ASTNode)} {e : VError}
    (h : firstError L [] = some e) : validate L = (false, some e) := by
  rw [← validateList_error_iff] at h
  simp [validate, h]

/-- Walking a concatenation: the first list is walked first, and the
second is only reached if the first throws nothing. -/
theorem firstError_append (A B : List (Option ASTNode)) (ids : List String) :
    firstError (A ++ B) ids =
      match firstError A ids with
      | some e => some e
      | none => firstError B (idsAfter A ids) := by
  induction A generalizing ids with
  | nil => simp [firstError, idsAfter]
  | cons o rest ih =>
    cases o with
    | none => simp [firstError, idsAfter]
    | some n =>
      simp only [List.cons_append, firstError, idsAfter]
      cases h : nodeCheck n ids <;> simp [h, ih]

/-- Identifier accumulation over a concatenation. -/
theorem idsAfter_append (A B : List (Option ASTNode)) (ids : List String) :
    idsAfter (A ++ B) ids = idsAfter B (idsAfter A ids) := by
  induction A generalizing ids with
  | nil => simp [idsAfter]
  | cons o rest ih => cases o <;> simp [idsAfter, ih]

/-- Accumulating identifiers never drops one already present. -/
theorem mem_idsAfter {x : String} (L : List (Option ASTNode)) (ids : List String)
    (h : x ∈ ids) : x ∈ idsAfter L ids := by
  induction L generalizing ids with
  | nil => simpa [idsAfter]
  | cons o rest ih =>
    cases o with
    | none => simp only [idsAfter]; exact ih _ h
    | some n =>
      simp only [idsAfter]
      apply ih
      unfold declCons
      cases declInfo n with
      | none => exact h
      | some p => simp [h]

/-- The check fired by a declaration node, for any identifier set. -/
theorem nodeCheck_decl {n : ASTNode} {nm : String} {ln : Nat}
    (h : declInfo n = some (nm, ln)) (ids : List String) :
    nodeCheck n ids = if nm ∈ ids then some ⟨redefinitionMessage nm, ln⟩ else none := by
  cases n <;> simp_all [declInfo, nodeCheck]

/-- The identifier-set update made by a declaration node. -/
theorem declCons_decl {n : ASTNode} {nm : String} {ln : Nat}
    (h : declInfo n = some (nm, ln)) (ids : List String) :
    declCons n ids = nm :: ids := by simp [declCons, h]

/-- Characterisation of a frame body that throws nothing: no null
entries, no enum with an internal duplicate, pairwise distinct
declaration names, and no declaration name already in `ids`. -/
theorem firstError_none_iff (L : List (Option ASTNode)) (ids : List String) :
    firstError L ids = none ↔
      (∀ o ∈ L, o ≠ none) ∧ (∀ n, some n ∈ L → nodeCheck n [] = none) ∧
        (declNames L).Nodup ∧ (∀ x ∈ declNames L, x ∉ ids) := by
  induction L generalizing ids with
  | nil => simp [firstError, declNames]
  | cons o rest ih =>
    cases o with
    | none => simp [firstError]
    | some n =>
      simp only [firstError]
      cases hd : declInfo n with
      | some p =>
        obtain ⟨nm, ln⟩ := p
        have hnames : declNames (some n :: rest) = nm :: declNames rest := by
          simp [declNames, hd]
        rw [nodeCheck_decl hd, hnames]
        by_cases hmem : nm ∈ ids
        · simp only [hmem, if_pos]
          constructor
          · intro h; cases h
          · rintro ⟨-, -, -, h4⟩
            exact absurd hmem (h4 nm (by simp))
        · simp only [hmem, if_neg, not_false_iff, declCons, hd]
          rw [ih]
          constructor
          · rintro ⟨h1, h2, h3, h4⟩
            refine ⟨?_, ?_, ?_, ?_⟩
            · intro o ho; rcases List.mem_cons.mp ho with h | h
              · subst h; simp
              · exact h1 o h
            · intro m hm; rcases List.mem_cons.mp hm with h | h
              · cases h; rw [nodeCheck_decl hd]; simp
              · exact h2 m h
            · refine List.nodup_cons.mpr ⟨?_, h3⟩
              intro hx; exact (h4 nm hx) (List.mem_cons_self nm ids)
            · intro x hx
              rcases List.mem_cons.mp hx with h | h
              · subst h; exact hmem
              · intro hxi
                exact (h4 x h) (List.mem_cons_of_mem _ hxi)
          · rintro ⟨h1, h2, h3, h4⟩
            have h3' := List.nodup_cons.mp h3
            refine ⟨fun o ho => h1 o (List.mem_cons_of_mem _ ho), ?_, h3'.2, ?_⟩
            · intro m hm; exact h2 m (List.mem_cons_of_mem _ hm)
            · intro x hx
              intro hxm
              rcases List.mem_cons.mp hxm with h | h
              · subst h; exact h3'.1 hx
              · exact (h4 x (List.mem_cons_of_mem _ hx)) h
      | none =>
        have hnc : nodeCheck n ids = nodeCheck n [] := by
          cases n <;> simp_all [declInfo, nodeCheck]
        have hnames : declNames (some n :: rest) = declNames rest := by
          simp [declNames, hd]
        have hcons : declCons n ids = ids := by simp [declCons, hd]
        rw [hnc, hnames, hcons]
        cases h : nodeCheck n [] with
        | some e =>
          simp only []
          constructor
          · intro hh; cases hh
          · rintro ⟨-, h2, -, -⟩
            exact absurd (h2 n (by simp)) (by simp [h])
        | none =>
          rw [ih]
          constructor
          · rintro ⟨h1, h2, h3, h4⟩
            refine ⟨?_, ?_, h3, h4⟩
            · intro o ho; rcases List.mem_cons.mp ho with hh | hh
              · subst hh; simp
              · exact h1 o hh
            · intro m hm; rcases List.mem_cons.mp hm with hh | hh
              · cases hh; exact h
              · exact h2 m hh
          · rintro ⟨h1, h2, h3, h4⟩
            exact ⟨fun o ho => h1 o (List.mem_cons_of_mem _ ho),
              fun m hm => h2 m (List.mem_cons_of_mem _ hm), h3, h4⟩

/-- Throwing nothing in the top frame is invariant under permuting the
list. -/
theorem firstError_none_perm {A B : List (Option ASTNode)} (h : A.Perm B) :
    (firstError A [] = none) ↔ (firstError B [] = none) := by
  have key : ∀ {X Y : List (Option ASTNode)}, X.Perm Y →
      firstError X [] = none → firstError Y [] = none := by
    intro X Y hp hX
    rw [firstError_none_iff] at hX ⊢
    obtain ⟨h1, h2, h3, h4⟩ := hX
    have hdn : (declNames X).Perm (declNames Y) := hp.filterMap _
    refine ⟨fun o ho => h1 o (hp.mem_iff.mpr ho),
      fun m hm => h2 m (hp.mem_iff.mpr hm), hdn.nodup_iff.mp h3, by simp⟩
  exact ⟨key h, key h.symm⟩

/-- If a concatenation throws nothing, neither does its first part. -/
theorem firstError_none_prefixPart {A B : List (Option ASTNode)} {ids : List String}
    (h : firstError (A ++ B) ids = none) : firstError A ids = none := by
  rw [firstError_append] at h
  cases hA : firstError A ids with
  | none => rfl
  | some e => rw [hA] at h; cases h

/-- A node of one of the unhandled kinds passes through a frame with no
check, no identifier-set update and no nested frame. -/
theorem validateNode_otherKind {n : ASTNode} (h : isOtherKind n = true)
    (ids : List String) : validateNode n ids = .ok (ids, none) := by
  cases n <;> simp_all [isOtherKind, validateNode]

/-- A frame whose list consists only of unhandled-kind nodes completes
normally with no nested frame and hence no `m_error` write. -/
theorem validateList_otherKind (L : List (Option ASTNode)) (ids : List String)
    (h : listOtherKind L = true) : validateList L ids = .ok none := by
  induction L generalizing ids with
  | nil => simp [validateList]
  | cons o rest ih =>
    cases o with
    | none => simp [listOtherKind] at h
    | some n =>
      simp only [listOtherKind, List.all_cons, Bool.and_eq_true] at h
      simp [validateList, validateNode_otherKind h.1, ih ids h.2, overwrite]

/-! ## Claims -/

/-- C1: the claim says the first failure anywhere in the recursive walk
aborts the entire validation and the top-level caller receives a failure
verdict.  The code does not do this: a nested frame catches its own
error, records it in `m_error` and returns `false`, but the caller
discards that boolean.  First conjunct: a duplicate member name inside a
struct is detected by the nested frame (its diagnostic is recorded), yet
the top-level verdict is success.  Second conjunct: after that nested
failure the walk continues and still examines the following node (here a
null entry, whose later error wins). -/
theorem claim_C1_nested_failure_not_propagated :
    validate [some (.struct
        [some (.variableDecl "a" (some (.builtinType 1)) none 1),
         some (.variableDecl "a" (some (.builtinType 2)) none 2)] 1)] =
      (true, some ⟨redefinitionMessage "a", 2⟩) ∧
    validate [some (.struct
        [some (.variableDecl "a" (some (.builtinType 1)) none 1),
         some (.variableDecl "a" (some (.builtinType 2)) none 2)] 1), none] =
      (false, some nullptrError) := by
  constructor <;>
    simp [validate, validateList, validateNode, nestedResult, frameResult,
      overwrite, nullptrError]

/-- C2: the claim says a null node reference at any position and any
nesting depth makes `validate` fail with the internal-consistency
diagnostic at line 1.  This holds at top level (second conjunct), but a
null inside a struct's member list only fails the nested frame, whose
verdict is discarded: the outer `validate` succeeds (first conjunct),
though the diagnostic is recorded in `m_error`. -/
theorem claim_C2_nested_null_not_propagated :
    validate [some (.struct [none] 7)] = (true, some nullptrError) ∧
    validate [none] = (false, some nullptrError) := by
  constructor <;>
    simp [validate, validateList, validateNode, nestedResult, frameResult,
      overwrite]

/-- C3: a top-level list of two declarations (each a `VariableDecl` or a
`TypeDecl`) sharing a name fails with the redefinition-of-identifier
diagnostic carrying the second declaration's recorded line. -/
theorem claim_C3_sibling_redefinition (d1 d2 : ASTNode) (nm : String)
    (l1 l2 : Nat) (h1 : declInfo d1 = some (nm, l1))
    (h2 : declInfo d2 = some (nm, l2)) :
    validate [some d1, some d2] = (false, some ⟨redefinitionMessage nm, l2⟩) := by
  apply validate_of_firstError
  simp [firstError, nodeCheck_decl h1, nodeCheck_decl h2, declCons_decl h1]

/-- Witness for C3 at the spec's scenario: `TypeDecl "Header"` at line 3
followed by `VariableDecl "Header"` at line 5 fails citing line 5. -/
theorem claim_C3_sibling_redefinition_witness :
    declInfo (ASTNode.typeDecl "Header" (some (.builtinType 3)) 3) = some ("Header", 3) ∧
    declInfo (ASTNode.variableDecl "Header" (some (.builtinType 5)) none 5) = some ("Header", 5) ∧
    validate [some (.typeDecl "Header" (some (.builtinType 3)) 3),
        some (.variableDecl "Header" (some (.builtinType 5)) none 5)] =
      (false, some ⟨redefinitionMessage "Header", 5⟩) :=
  ⟨rfl, rfl, claim_C3_sibling_redefinition _ _ "Header" 3 5 rfl rfl⟩

/-- C4: sibling scopes are independent: a struct or union member
declaration sharing its name with a declaration in the enclosing list
does not make `validate` fail, because the member list is walked in a
fresh frame with an empty identifier set. -/
theorem claim_C4_scopes_independent (d m : ASTNode) (nm : String)
    (ln ln2 ls : Nat) (hd : declInfo d = some (nm, ln))
    (_hm : declInfo m = some (nm, ln2)) :
    (validate [some d, some (.struct [some m] ls)]).1 = true ∧
    (validate [some d, some (.union [some m] ls)]).1 = true := by
  constructor <;>
  · rw [validate_fst]
    simp only [firstError, nodeCheck_decl hd, declCons_decl hd]
    simp [nodeCheck]

/-- Witness for C4 at the spec's scenario: top-level `TypeDecl "x"`
followed by a struct member `VariableDecl "x"` validates successfully. -/
theorem claim_C4_scopes_independent_witness :
    declInfo (ASTNode.typeDecl "x" (some (.builtinType 1)) 1) = some ("x", 1) ∧
    declInfo (ASTNode.variableDecl "x" (some (.builtinType 2)) none 2) = some ("x", 2) ∧
    (validate [some (.typeDecl "x" (some (.builtinType 1)) 1),
        some (.struct [some (.variableDecl "x" (some (.builtinType 2)) none 2)] 2)]).1 = true :=
  ⟨rfl, rfl,
    (claim_C4_scopes_independent (ASTNode.typeDecl "x" (some (.builtinType 1)) 1)
      (ASTNode.variableDecl "x" (some (.builtinType 2)) none 2) "x" 1 2 2 rfl rfl).1⟩

/-- C5: enum constants are checked only within their own enum: two
distinct enums may both declare constant `n` (first conjunct), while one
enum with two entries named `n` fails with the enum-constant
redefinition diagnostic at the line of the second entry's value node
(second conjunct). -/
theorem claim_C5_enum_constants_local (n : String) (v1 v2 : ASTNode)
    (l1 l2 l3 : Nat) :
    validate [some (.enum [(n, v1)] l1), some (.enum [(n, v2)] l2)] = (true, none) ∧
    validate [some (.enum [(n, v1), (n, v2)] l3)] =
      (false, some ⟨enumRedefinitionMessage n, lineNumber v2⟩) := by
  constructor
  · simp [validate, validateList, validateNode, checkEnumEntries, overwrite]
  · apply validate_of_firstError
    simp [firstError, nodeCheck, checkEnumEntries]

/-- C7: running `validate` a second time on the same AST, starting from
the `m_error` state the first run left behind, returns the same verdict
and leaves the same `m_error` (hence on failure the same diagnostic). -/
theorem claim_C7_idempotent (ast : List (Option ASTNode)) (err : Option VError) :
    runValidator ast (runValidator ast err).2 = runValidator ast err := by
  unfold runValidator
  cases h : (validate ast).2 <;> simp [overwrite, h]

/-- C8: a list consisting only of nodes of the kinds `validate` has no
branch for (pointer/array declarations, bitfields, expressions,
literals) is accepted with no name check and no recursion: the verdict
is success and no nested frame ever ran (no `m_error` write). -/
theorem claim_C8_other_kinds_ignored (L : List (Option ASTNode))
    (h : listOtherKind L = true) : validate L = (true, none) := by
  rw [validate, validateList_otherKind L [] h]

/-- Witness for C8: a bitfield with duplicate entry names together with
two pointer declarations and an array declaration all named "p"
validates successfully. -/
theorem claim_C8_other_kinds_ignored_witness :
    listOtherKind
        [some (.bitfield [("a", .integerLiteral 0 1), ("a", .integerLiteral 1 2)] 1),
         some (.pointerVariableDecl "p" none none none 3),
         some (.pointerVariableDecl "p" none none none 4),
         some (.arrayVariableDecl "p" none none none 5)] = true ∧
    validate
        [some (.bitfield [("a", .integerLiteral 0 1), ("a", .integerLiteral 1 2)] 1),
         some (.pointerVariableDecl "p" none none none 3),
         some (.pointerVariableDecl "p" none none none 4),
         some (.arrayVariableDecl "p" none none none 5)] = (true, none) :=
  ⟨rfl, claim_C8_other_kinds_ignored _ rfl⟩

/-- C10: anonymous type declarations are not exempt from the uniqueness
check: two `TypeDecl` nodes with the empty name conflict, and the
failure cites the second one's line. -/
theorem claim_C10_anonymous_typedecls_conflict (t1 t2 : Option ASTNode)
    (l1 l2 : Nat) :
    validate [some (.typeDecl "" t1 l1), some (.typeDecl "" t2 l2)] =
      (false, some ⟨redefinitionMessage "", l2⟩) := by
  apply validate_of_firstError
  simp [firstError, nodeCheck, declCons, declInfo]

/-- Verdicts agree on permuted top-level lists (the top frame's throw
conditions are order-insensitive as to whether they fire at all). -/
theorem validate_fst_perm {A B : List (Option ASTNode)} (h : A.Perm B) :
    (validate A).1 = (validate B).1 := by
  rw [validate_fst, validate_fst]
  have hiff := firstError_none_perm h
  cases hA : firstError A [] <;> cases hB : firstError B [] <;> simp_all

/-- Swapping two elements of a list is a permutation. -/
theorem swap_perm (pre mid post : List (Option ASTNode)) (a b : Option ASTNode) :
    (pre ++ a :: (mid ++ b :: post)).Perm (pre ++ b :: (mid ++ a :: post)) := by
  apply List.Perm.append_left
  have h1 : (mid ++ b :: post).Perm (b :: (mid ++ post)) := List.perm_middle
  have h2 : (mid ++ a :: post).Perm (a :: (mid ++ post)) := List.perm_middle
  exact ((h1.cons a).trans (List.Perm.swap b a _)).trans (h2.cons b).symm

/-- C6: swapping two non-conflicting declarations (distinct names) never
changes the verdict (first conjunct); when the list's only conflict is
between the two same-named declarations (each arrangement passes once
either of the two is removed), the walk fails at whichever of the two is
currently second, citing its recorded line (second conjunct). -/
theorem claim_C6_swap_determinism (pre mid post : List (Option ASTNode))
    (d1 d2 : ASTNode) (nm1 nm2 : String) (l1 l2 : Nat)
    (hd1 : declInfo d1 = some (nm1, l1)) (hd2 : declInfo d2 = some (nm2, l2)) :
    (nm1 ≠ nm2 →
      (validate (pre ++ some d1 :: (mid ++ some d2 :: post))).1 =
        (validate (pre ++ some d2 :: (mid ++ some d1 :: post))).1) ∧
    (nm1 = nm2 →
      (validate (pre ++ some d1 :: (mid ++ post))).1 = true →
      (validate (pre ++ (mid ++ some d2 :: post))).1 = true →
      validate (pre ++ some d1 :: (mid ++ some d2 :: post)) =
        (false, some ⟨redefinitionMessage nm2, l2⟩) ∧
      validate (pre ++ some d2 :: (mid ++ some d1 :: post)) =
        (false, some ⟨redefinitionMessage nm1, l1⟩)) := by
  constructor
  · intro _
    exact validate_fst_perm (swap_perm pre mid post (some d1) (some d2))
  · intro hname hpass1 hpass2
    subst hname
    rw [validate_fst, Option.isNone_iff_eq_none] at hpass1 hpass2
    have hA : firstError (pre ++ some d1 :: mid) [] = none := by
      have heq : pre ++ some d1 :: (mid ++ post) = (pre ++ some d1 :: mid) ++ post := by
        simp [List.append_assoc]
      rw [heq] at hpass1
      exact firstError_none_prefixPart hpass1
    have hB : firstError (pre ++ some d2 :: mid) [] = none := by
      have hperm : (pre ++ (mid ++ some d2 :: post)).Perm
          ((pre ++ some d2 :: mid) ++ post) := by
        have hm : (mid ++ some d2 :: post).Perm (some d2 :: (mid ++ post)) :=
          List.perm_middle
        have heq : (pre ++ some d2 :: mid) ++ post = pre ++ some d2 :: (mid ++ post) := by
          simp [List.append_assoc]
        rw [heq]
        exact hm.append_left pre
      exact firstError_none_prefixPart
        ((firstError_none_perm hperm).mp hpass2)
    constructor
    · apply validate_of_firstError
      have hsplit : pre ++ some d1 :: (mid ++ some d2 :: post) =
          (pre ++ some d1 :: mid) ++ (some d2 :: post) := by
        simp [List.append_assoc]
      rw [hsplit, firstError_append, hA]
      have hmem : nm1 ∈ idsAfter (pre ++ some d1 :: mid) [] := by
        rw [idsAfter_append]
        simp only [idsAfter]
        rw [declCons_decl hd1]
        exact mem_idsAfter _ _ (List.mem_cons_self _ _)
      simp [firstError, nodeCheck_decl hd2, hmem]
    · apply validate_of_firstError
      have hsplit : pre ++ some d2 :: (mid ++ some d1 :: post) =
          (pre ++ some d2 :: mid) ++ (some d1 :: post) := by
        simp [List.append_assoc]
      rw [hsplit, firstError_append, hB]
      have hmem : nm1 ∈ idsAfter (pre ++ some d2 :: mid) [] := by
        rw [idsAfter_append]
        simp only [idsAfter]
        rw [declCons_decl hd2]
        exact mem_idsAfter _ _ (List.mem_cons_self _ _)
      simp [firstError, nodeCheck_decl hd1, hmem]

/-- Witness for C6: swapping distinct-named declarations preserves the
verdict; for a conflicting pair, each order cites the line of the
declaration standing second (lines 5 and 3 respectively). -/
theorem claim_C6_swap_determinism_witness :
    ((validate [some (.typeDecl "x" none 3), some (.variableDecl "y" none none 5)]).1 =
      (validate [some (.variableDecl "y" none none 5), some (.typeDecl "x" none 3)]).1) ∧
    (validate [some (.typeDecl "x" none 3), some (.variableDecl "x" none none 5)] =
        (false, some ⟨redefinitionMessage "x", 5⟩) ∧
      validate [some (.variableDecl "x" none none 5), some (.typeDecl "x" none 3)] =
        (false, some ⟨redefinitionMessage "x", 3⟩)) := by
  constructor
  · exact (claim_C6_swap_determinism [] [] [] (.typeDecl "x" none 3)
      (.variableDecl "y" none none 5) "x" "y" 3 5 rfl rfl).1 (by decide)
  · exact (claim_C6_swap_determinism [] [] [] (.typeDecl "x" none 3)
      (.variableDecl "x" none none 5) "x" "x" 3 5 rfl rfl).2 rfl
      (by rw [validate_fst]; simp [firstError, nodeCheck])
      (by rw [validate_fst]; simp [firstError, nodeCheck])

/-- Every AST node has positive size. -/
theorem sizeOf_pos_node (n : ASTNode) : 0 < sizeOf n := by
  cases n <;> simp_arith

/-- Fuel adequacy: with fuel at least the size of the argument, the
fuel-bounded walk finishes and computes exactly the unbounded walk.
Proved for nodes and node lists simultaneously by induction on fuel. -/
theorem fuel_adequate (fuel : Nat) :
    (∀ n ids, sizeOf n ≤ fuel → validateNodeFuel fuel n ids = some (validateNode n ids)) ∧
    (∀ L ids, sizeOf L ≤ fuel → validateListFuel fuel L ids = some (validateList L ids)) := by
  induction fuel with
  | zero =>
    constructor
    · intro n ids h
      exact absurd h (by have := sizeOf_pos_node n; omega)
    · intro L ids h
      have : 0 < sizeOf L := by cases L <;> simp_arith
      omega
  | succ fuel ih =>
    obtain ⟨ihn, ihl⟩ := ih
    have hnested : ∀ t : Option ASTNode, sizeOf t ≤ fuel + 1 →
        nestedResultFuel fuel t = some (nestedResult t) := by
      intro t ht
      cases t with
      | none => simp [nestedResultFuel, nestedResult]
      | some tn =>
        have htn : sizeOf tn ≤ fuel := by simp at ht; omega
        rw [nestedResultFuel, ihn tn [] htn]
        cases h2 : validateNode tn [] with
        | error e => simp [nestedResult, h2]
        | ok p => simp [nestedResult, h2]
    have hframe : ∀ ms : List (Option ASTNode), sizeOf ms ≤ fuel →
        frameResultFuel fuel ms = some (frameResult ms) := by
      intro ms hms
      rw [frameResultFuel, ihl ms [] hms]
      cases h2 : validateList ms [] <;> simp [frameResult, h2]
    constructor
    · intro n ids h
      cases n with
      | variableDecl name type po line =>
        have ht : sizeOf type ≤ fuel + 1 := by simp at h; omega
        simp only [validateNodeFuel, validateNode]
        by_cases hmem : name ∈ ids
        · simp [hmem]
        · simp [hmem, hnested type ht]
      | typeDecl name type line =>
        have ht : sizeOf type ≤ fuel + 1 := by simp at h; omega
        simp only [validateNodeFuel, validateNode]
        by_cases hmem : name ∈ ids
        · simp [hmem]
        · simp [hmem, hnested type ht]
      | struct members line =>
        have hm : sizeOf members ≤ fuel := by simp at h; omega
        simp [validateNodeFuel, validateNode, hframe members hm]
      | union members line =>
        have hm : sizeOf members ≤ fuel := by simp at h; omega
        simp [validateNodeFuel, validateNode, hframe members hm]
      | enum entries line =>
        simp only [validateNodeFuel, validateNode]
        cases h2 : checkEnumEntries entries [] <;> simp [h2]
      | pointerVariableDecl name type st po line => simp [validateNodeFuel, validateNode]
      | arrayVariableDecl name type sz po line => simp [validateNodeFuel, validateNode]
      | bitfield entries line => simp [validateNodeFuel, validateNode]
      | builtinType line => simp [validateNodeFuel, validateNode]
      | integerLiteral v line => simp [validateNodeFuel, validateNode]
      | numericExpression le ri line => simp [validateNodeFuel, validateNode]
      | rvalue p line => simp [validateNodeFuel, validateNode]
    · intro L ids h
      cases L with
      | nil => simp [validateListFuel, validateList]
      | cons o rest =>
        cases o with
        | none => simp [validateListFuel, validateList]
        | some n =>
          have hn : sizeOf n ≤ fuel := by simp at h; omega
          have hr : sizeOf rest ≤ fuel := by simp at h; omega
          simp only [validateListFuel, validateList]
          rw [ihn n ids hn]
          cases h1 : validateNode n ids with
          | error e => simp
          | ok p =>
            obtain ⟨ids2, w1⟩ := p
            simp only []
            rw [ihl rest ids2 hr]
            cases h2 : validateList rest ids2 <;> simp

/-- C9: `validate` terminates on every finite tree-shaped AST, in a
number of steps bounded by the AST's size: running the walk with the
explicitly fuel-bounded variant and fuel equal to the AST's size never
exhausts the fuel and computes exactly `validate`. -/
theorem claim_C9_terminates_within_size (ast : List (Option ASTNode)) :
    validateFuel (sizeOf ast) ast = some (validate ast) := by
  have h := (fuel_adequate (sizeOf ast)).2 ast [] (le_refl _)
  rw [validateFuel, h]
  cases h2 : validateList ast [] <;> simp [validate, h2]

end ImHexLang
